import Mathlib

/-!
Shallow embedding of the Alembic migration
`llvm-flow-api/alembic/versions/c6b6fb03f1c5_init.py`.

The migration consists of four module-level revision identifiers, an
`upgrade` function that issues a fixed sequence of DDL statements
(`op.create_table` / `op.create_index`), and a `downgrade` function that
issues the inverse sequence (`op.drop_index` / `op.drop_table`).

We embed the DDL statements as a datatype `Op`, transcribe the two
statement sequences literally as `upgradeOps` and `downgradeOps`, and give
the statements their standard relational-catalog semantics (`applyOp`):
creating an object that already exists is an error, as is creating an
index on a missing table or a table whose foreign-key target is missing,
and dropping a missing object is an error.  A whole migration runs inside
one transaction, so a failure leaves the schema unchanged (`runDDL`).

Row-level behaviour of the declared constraints (foreign keys with
ON DELETE CASCADE, unique indexes, nullable columns) is embedded as a
small DML layer (`applyDML`) whose checks are driven by the declarations
transcribed from the migration.
-/

namespace LlvmFlow

/-- SQL column types appearing in the migration (`sa.Integer()`,
`sa.String()`, `sa.Text()`). -/
inductive ColType where
  | integer
  | string
  | text
deriving DecidableEq, Repr

/-- One `sa.Column(name, type, nullable=…)` declaration. -/
structure Column where
  name : String
  type : ColType
  nullable : Bool
deriving DecidableEq, Repr

/-- One `sa.ForeignKeyConstraint(cols, refcols, ondelete=…)` declaration.
`refCols` pairs with `refTable` (e.g. `identifiers.id`). -/
structure ForeignKey where
  cols : List String
  refTable : String
  refCols : List String
  onDelete : Option String
deriving DecidableEq, Repr

/-- One `op.create_table(...)` payload: name, columns, primary key and
foreign-key constraints. -/
structure TableDef where
  name : String
  columns : List Column
  primaryKey : List String
  foreignKeys : List ForeignKey
deriving DecidableEq, Repr

/-- One `op.create_index(name, table, cols, unique=…)` payload. -/
structure IndexDef where
  name : String
  table : String
  columns : List String
  unique : Bool
deriving DecidableEq, Repr

/-- A DDL statement as issued by the migration body. -/
inductive Op where
  | createTable (t : TableDef)
  | createIndex (i : IndexDef)
  | dropIndex (name : String) (table : String)
  | dropTable (name : String)
deriving DecidableEq, Repr

/-- A database schema state: the catalog of tables and of indexes, in
creation order. -/
structure Schema where
  tables : List TableDef
  indexes : List IndexDef
deriving DecidableEq, Repr

def emptySchema : Schema := ⟨[], []⟩

def hasTable (s : Schema) (n : String) : Bool :=
  s.tables.any fun t => t.name == n

def hasIndex (s : Schema) (n : String) : Bool :=
  s.indexes.any fun i => i.name == n

def lookupTable (s : Schema) (n : String) : Option TableDef :=
  s.tables.find? fun t => t.name == n

def lookupIndex (s : Schema) (n : String) : Option IndexDef :=
  s.indexes.find? fun i => i.name == n

/-- Errors surfaced by the relational engine on a bad DDL statement. -/
inductive DDLError where
  | tableExists (n : String)
  | indexExists (n : String)
  | missingTable (n : String)
  | missingIndex (n : String)
deriving DecidableEq, Repr

/-- Standard catalog semantics of one DDL statement: creation fails on a
name clash or a missing referenced/indexed table, dropping fails on a
missing object. -/
def applyOp (s : Schema) : Op → Except DDLError Schema
  | .createTable t =>
    if hasTable s t.name then .error (.tableExists t.name)
    else if t.foreignKeys.any (fun fk => !(hasTable s fk.refTable)) then
      .error (.missingTable (t.foreignKeys.foldl
        (fun acc fk => if hasTable s fk.refTable then acc else fk.refTable) ""))
    else .ok { s with tables := s.tables ++ [t] }
  | .createIndex i =>
    if hasIndex s i.name then .error (.indexExists i.name)
    else if !(hasTable s i.table) then .error (.missingTable i.table)
    else .ok { s with indexes := s.indexes ++ [i] }
  | .dropIndex n _tbl =>
    if hasIndex s n then
      .ok { s with indexes := s.indexes.filter fun i => !(i.name == n) }
    else .error (.missingIndex n)
  | .dropTable n =>
    if hasTable s n then
      .ok { s with tables := s.tables.filter fun t => !(t.name == n) }
    else .error (.missingTable n)

/-- Run a statement sequence; the first error aborts the run. -/
def applyOps : List Op → Schema → Except DDLError Schema
  | [], s => .ok s
  | op :: ops, s =>
    match applyOp s op with
    | .ok s' => applyOps ops s'
    | .error e => .error e

/-- A migration runs in one transaction (transactional DDL): on any error
the schema is left exactly as it started. -/
def runDDL (ops : List Op) (s : Schema) : Schema :=
  match applyOps ops s with
  | .ok s' => s'
  | .error _ => s

/-! ## The migration, transcribed -/

/-- Module-level `revision = 'c6b6fb03f1c5'`. -/
def revision : String := "c6b6fb03f1c5"

/-- Module-level `down_revision = None`. -/
def down_revision : Option String := none

/-- Module-level `branch_labels = None`. -/
def branch_labels : Option String := none

/-- Module-level `depends_on = None`. -/
def depends_on : Option String := none

/-- Transcribes `op.create_table('identifiers', ...)`. -/
def identifiersTable : TableDef :=
  { name := "identifiers"
    columns :=
      [ ⟨"id", .integer, false⟩
      , ⟨"Identifier", .text, false⟩ ]
    primaryKey := ["id"]
    foreignKeys := [] }

/-- Transcribes `op.create_table('user', ...)`. -/
def userTable : TableDef :=
  { name := "user"
    columns :=
      [ ⟨"id", .integer, false⟩
      , ⟨"username", .string, true⟩
      , ⟨"email", .string, true⟩ ]
    primaryKey := ["id"]
    foreignKeys := [] }

/-- Transcribes `op.create_table('files', ...)`. -/
def filesTable : TableDef :=
  { name := "files"
    columns :=
      [ ⟨"id", .integer, false⟩
      , ⟨"Identifier_field", .integer, true⟩
      , ⟨"content", .string, false⟩ ]
    primaryKey := ["id"]
    foreignKeys := [⟨["Identifier_field"], "identifiers", ["id"], some "CASCADE"⟩] }

/-- Transcribes `op.create_table('passes', ...)`. -/
def passesTable : TableDef :=
  { name := "passes"
    columns :=
      [ ⟨"id", .integer, false⟩
      , ⟨"Identifier_field", .integer, true⟩
      , ⟨"transformpass", .text, false⟩ ]
    primaryKey := ["id"]
    foreignKeys := [⟨["Identifier_field"], "identifiers", ["id"], some "CASCADE"⟩] }

def ixIdentifiersId : IndexDef := ⟨"ix_identifiers_id", "identifiers", ["id"], false⟩
def ixUserEmail : IndexDef := ⟨"ix_user_email", "user", ["email"], true⟩
def ixUserId : IndexDef := ⟨"ix_user_id", "user", ["id"], false⟩
def ixUserUsername : IndexDef := ⟨"ix_user_username", "user", ["username"], true⟩
def ixFilesId : IndexDef := ⟨"ix_files_id", "files", ["id"], false⟩
def ixPassesId : IndexDef := ⟨"ix_passes_id", "passes", ["id"], false⟩

/-- The statement sequence of `upgrade()`, in source order. -/
def upgradeOps : List Op :=
  [ .createTable identifiersTable
  , .createIndex ixIdentifiersId
  , .createTable userTable
  , .createIndex ixUserEmail
  , .createIndex ixUserId
  , .createIndex ixUserUsername
  , .createTable filesTable
  , .createIndex ixFilesId
  , .createTable passesTable
  , .createIndex ixPassesId ]

/-- The statement sequence of `downgrade()`, in source order. -/
def downgradeOps : List Op :=
  [ .dropIndex "ix_passes_id" "passes"
  , .dropTable "passes"
  , .dropIndex "ix_files_id" "files"
  , .dropTable "files"
  , .dropIndex "ix_user_username" "user"
  , .dropIndex "ix_user_id" "user"
  , .dropIndex "ix_user_email" "user"
  , .dropTable "user"
  , .dropIndex "ix_identifiers_id" "identifiers"
  , .dropTable "identifiers" ]

/-- The four table names the migration creates. -/
def declaredTableNames : List String := ["identifiers", "user", "files", "passes"]

/-- The index names the migration creates (there are six). -/
def declaredIndexNames : List String :=
  [ "ix_identifiers_id", "ix_user_email", "ix_user_id", "ix_user_username"
  , "ix_files_id", "ix_passes_id" ]

/-- The schema obtained by running `upgrade` on an empty database. -/
def upgradedFromEmpty : Schema :=
  { tables := [identifiersTable, userTable, filesTable, passesTable]
    indexes := [ixIdentifiersId, ixUserEmail, ixUserId, ixUserUsername, ixFilesId, ixPassesId] }

example : (applyOps upgradeOps emptySchema).toOption = some upgradedFromEmpty := by decide

example : (applyOps downgradeOps upgradedFromEmpty).toOption = some emptySchema := by decide

/-! ## Row-level (DML) semantics of the declared constraints

The migration only declares the schema; the relational engine enforces the
declared primary keys, foreign keys and unique indexes on inserts, updates
and deletes.  We give those declarations their standard SQL meaning on row
states.  Each check below is switched by the corresponding declaration
transcribed above (`filesTable.foreignKeys`, `ixUserEmail.unique`, …), so
the behaviour is the one the migration's declarations induce. -/

/-- A row of `identifiers`: `id` (PK), `Identifier` (non-null text). -/
structure IdentifierRow where
  id : Nat
  Identifier : String
deriving DecidableEq, Repr

/-- A row of `user`: `id` (PK), nullable `username` and `email`. -/
structure UserRow where
  id : Nat
  username : Option String
  email : Option String
deriving DecidableEq, Repr

/-- A row of `files`: `id` (PK), nullable FK `Identifier_field`, non-null
`content`. -/
structure FileRow where
  id : Nat
  Identifier_field : Option Nat
  content : String
deriving DecidableEq, Repr

/-- A row of `passes`: `id` (PK), nullable FK `Identifier_field`, non-null
`transformpass`. -/
structure PassRow where
  id : Nat
  Identifier_field : Option Nat
  transformpass : String
deriving DecidableEq, Repr

/-- Row contents of the four tables after `upgrade` has been applied. -/
structure DBState where
  identifiers : List IdentifierRow
  users : List UserRow
  files : List FileRow
  passes : List PassRow
deriving DecidableEq, Repr

/-- The freshly migrated database: four empty tables. -/
def initialDB : DBState := ⟨[], [], [], []⟩

def identifierIds (db : DBState) : List Nat :=
  db.identifiers.map fun r => r.id

/-- A nullable foreign-key value is admissible iff it is null or matches an
existing parent key. -/
def fkOk (parentIds : List Nat) : Option Nat → Bool
  | none => true
  | some k => parentIds.any fun j => j == k

/-- Whether the `files` → `identifiers` foreign key is declared
ON DELETE CASCADE (read off the transcribed declaration). -/
def filesCascade : Bool :=
  filesTable.foreignKeys.any fun fk =>
    fk.refTable == "identifiers" && fk.onDelete == some "CASCADE"

/-- Whether the `passes` → `identifiers` foreign key is declared
ON DELETE CASCADE (read off the transcribed declaration). -/
def passesCascade : Bool :=
  passesTable.foreignKeys.any fun fk =>
    fk.refTable == "identifiers" && fk.onDelete == some "CASCADE"

/-- Is a unique-index slot already taken?  Nulls never collide (standard
relational semantics of a unique index over a nullable column). -/
def takenBy (existing : List (Option String)) : Option String → Bool
  | none => false
  | some v => existing.any fun w => w == some v

/-- DML statements available against the migrated schema. -/
inductive DMLOp where
  | insertIdentifier (r : IdentifierRow)
  | insertUser (r : UserRow)
  | insertFile (r : FileRow)
  | insertPass (r : PassRow)
  | deleteIdentifier (k : Nat)
  | deleteUser (k : Nat)
  | deleteFile (k : Nat)
  | deletePass (k : Nat)
  | updateFileRef (k : Nat) (ref : Option Nat)
  | updatePassRef (k : Nat) (ref : Option Nat)
deriving DecidableEq, Repr

/-- One DML statement under the constraints the migration declares:
primary keys reject duplicate ids, the declared foreign keys reject
dangling references on insert and update, the unique indexes on
`user.email` / `user.username` reject duplicate non-null values, and
deleting an identifier cascades to `files` / `passes` rows exactly when
their foreign key is declared ON DELETE CASCADE. -/
def applyDML (db : DBState) : DMLOp → Option DBState
  | .insertIdentifier r =>
    if db.identifiers.any (fun v => v.id == r.id) then none
    else some { db with identifiers := db.identifiers ++ [r] }
  | .insertUser r =>
    if db.users.any (fun v => v.id == r.id) then none
    else if ixUserEmail.unique && takenBy (db.users.map fun v => v.email) r.email then none
    else if ixUserUsername.unique && takenBy (db.users.map fun v => v.username) r.username then none
    else some { db with users := db.users ++ [r] }
  | .insertFile r =>
    if db.files.any (fun v => v.id == r.id) then none
    else if !(fkOk (identifierIds db) r.Identifier_field) then none
    else some { db with files := db.files ++ [r] }
  | .insertPass r =>
    if db.passes.any (fun v => v.id == r.id) then none
    else if !(fkOk (identifierIds db) r.Identifier_field) then none
    else some { db with passes := db.passes ++ [r] }
  | .deleteIdentifier k =>
    some { db with
      identifiers := db.identifiers.filter fun v => !(v.id == k)
      files :=
        if filesCascade then db.files.filter fun v => !(v.Identifier_field == some k)
        else db.files
      passes :=
        if passesCascade then db.passes.filter fun v => !(v.Identifier_field == some k)
        else db.passes }
  | .deleteUser k =>
    some { db with users := db.users.filter fun v => !(v.id == k) }
  | .deleteFile k =>
    some { db with files := db.files.filter fun v => !(v.id == k) }
  | .deletePass k =>
    some { db with passes := db.passes.filter fun v => !(v.id == k) }
  | .updateFileRef k ref =>
    if !(fkOk (identifierIds db) ref) then none
    else some { db with
      files := db.files.map fun v =>
        if v.id == k then { v with Identifier_field := ref } else v }
  | .updatePassRef k ref =>
    if !(fkOk (identifierIds db) ref) then none
    else some { db with
      passes := db.passes.map fun v =>
        if v.id == k then { v with Identifier_field := ref } else v }

/-- Run a DML statement sequence; a rejected statement aborts the run. -/
def runDML : DBState → List DMLOp → Option DBState
  | db, [] => some db
  | db, op :: ops =>
    match applyDML db op with
    | some db' => runDML db' ops
    | none => none

/-- Referential integrity: every `files` and `passes` row has a null
`Identifier_field` or references an existing `identifiers.id`. -/
def refIntegrity (db : DBState) : Bool :=
  db.files.all (fun r => fkOk (identifierIds db) r.Identifier_field) &&
    db.passes.all (fun r => fkOk (identifierIds db) r.Identifier_field)

example :
    runDML initialDB
      [ .insertIdentifier ⟨1, "mod.cpp"⟩
      , .insertFile ⟨1, some 1, "int main()"⟩
      , .insertPass ⟨1, some 1, "InstCombine"⟩
      , .deleteIdentifier 1 ] = some initialDB := by decide

example : applyDML initialDB (.insertFile ⟨1, some 7, "x"⟩) = none := by decide

/-! ## DDL lemmas -/

theorem filter_not_of_any_eq_false {α : Type} {p : α → Bool} {l : List α}
    (h : l.any p = false) : l.filter (fun a => !(p a)) = l := by
  apply List.filter_eq_self.mpr
  intro a ha
  cases hpa : p a with
  | false => simp
  | true => exact absurd (List.any_eq_true.mpr ⟨a, ha, hpa⟩) (by simp [h])

/-- Running `upgrade` from any schema free of the declared names appends
exactly the four tables and six indexes, in creation order. -/
theorem upgrade_ok (s : Schema)
    (h1 : hasTable s "identifiers" = false) (h2 : hasTable s "user" = false)
    (h3 : hasTable s "files" = false) (h4 : hasTable s "passes" = false)
    (h5 : hasIndex s "ix_identifiers_id" = false) (h6 : hasIndex s "ix_user_email" = false)
    (h7 : hasIndex s "ix_user_id" = false) (h8 : hasIndex s "ix_user_username" = false)
    (h9 : hasIndex s "ix_files_id" = false) (h10 : hasIndex s "ix_passes_id" = false) :
    applyOps upgradeOps s =
      .ok ⟨s.tables ++ [identifiersTable, userTable, filesTable, passesTable],
           s.indexes ++ [ixIdentifiersId, ixUserEmail, ixUserId, ixUserUsername,
             ixFilesId, ixPassesId]⟩ := by
  obtain ⟨T, I⟩ := s
  simp only [hasTable, hasIndex] at h1 h2 h3 h4 h5 h6 h7 h8 h9 h10
  simp [upgradeOps, applyOps, applyOp, hasTable, hasIndex,
    identifiersTable, userTable, filesTable, passesTable,
    ixIdentifiersId, ixUserEmail, ixUserId, ixUserUsername, ixFilesId, ixPassesId,
    h1, h2, h3, h4, h5, h6, h7, h8, h9, h10]

/-- Running `downgrade` on the result of `upgrade` removes exactly what
`upgrade` added, restoring the starting schema. -/
theorem downgrade_after_upgrade (s : Schema)
    (h1 : hasTable s "identifiers" = false) (h2 : hasTable s "user" = false)
    (h3 : hasTable s "files" = false) (h4 : hasTable s "passes" = false)
    (h5 : hasIndex s "ix_identifiers_id" = false) (h6 : hasIndex s "ix_user_email" = false)
    (h7 : hasIndex s "ix_user_id" = false) (h8 : hasIndex s "ix_user_username" = false)
    (h9 : hasIndex s "ix_files_id" = false) (h10 : hasIndex s "ix_passes_id" = false) :
    applyOps downgradeOps
      ⟨s.tables ++ [identifiersTable, userTable, filesTable, passesTable],
       s.indexes ++ [ixIdentifiersId, ixUserEmail, ixUserId, ixUserUsername,
         ixFilesId, ixPassesId]⟩ = .ok s := by
  obtain ⟨T, I⟩ := s
  simp only [hasTable, hasIndex] at h1 h2 h3 h4 h5 h6 h7 h8 h9 h10
  have f1 := filter_not_of_any_eq_false h1
  have f2 := filter_not_of_any_eq_false h2
  have f3 := filter_not_of_any_eq_false h3
  have f4 := filter_not_of_any_eq_false h4
  have f5 := filter_not_of_any_eq_false h5
  have f6 := filter_not_of_any_eq_false h6
  have f7 := filter_not_of_any_eq_false h7
  have f8 := filter_not_of_any_eq_false h8
  have f9 := filter_not_of_any_eq_false h9
  have f10 := filter_not_of_any_eq_false h10
  simp [downgradeOps, applyOps, applyOp, hasTable, hasIndex,
    identifiersTable, userTable, filesTable, passesTable,
    ixIdentifiersId, ixUserEmail, ixUserId, ixUserUsername, ixFilesId, ixPassesId,
    h1, h2, h3, h4, h5, h6, h7, h8, h9, h10,
    f1, f2, f3, f4, f5, f6, f7, f8, f9, f10]

/-! ## Claim theorems: round trip, column names, ordering, revision -/

/-- C1: starting from any schema that contains none of the tables and none
of the indexes this migration declares, `upgrade` succeeds and `downgrade`
then restores exactly the starting schema — no leftover tables or
indexes.  (The migration declares six indexes.) -/
theorem upgrade_downgrade_roundtrip (s : Schema)
    (ht : declaredTableNames.all (fun n => !(hasTable s n)) = true)
    (hi : declaredIndexNames.all (fun n => !(hasIndex s n)) = true) :
    ∃ s1, applyOps upgradeOps s = .ok s1 ∧ applyOps downgradeOps s1 = .ok s := by
  simp only [declaredTableNames, declaredIndexNames, List.all_cons, List.all_nil,
    Bool.and_eq_true, Bool.not_eq_true'] at ht hi
  obtain ⟨h1, h2, h3, h4, -⟩ := ht
  obtain ⟨h5, h6, h7, h8, h9, h10, -⟩ := hi
  exact ⟨_, upgrade_ok s h1 h2 h3 h4 h5 h6 h7 h8 h9 h10,
    downgrade_after_upgrade s h1 h2 h3 h4 h5 h6 h7 h8 h9 h10⟩

/-- A table unrelated to the migration, used to build concrete witness
schemas. -/
def wTable : TableDef := ⟨"other", [⟨"id", ColType.integer, false⟩], ["id"], []⟩

/-- An index unrelated to the migration. -/
def wIndex : IndexDef := ⟨"ix_other", "other", ["id"], false⟩

/-- A concrete pre-migration schema holding one unrelated table and
index. -/
def wSchema : Schema := ⟨[wTable], [wIndex]⟩

/-- C1 witness: the round trip at a concrete schema with one unrelated
table and index. -/
theorem upgrade_downgrade_roundtrip_witness :
    declaredTableNames.all (fun n => !(hasTable wSchema n)) = true ∧
    declaredIndexNames.all (fun n => !(hasIndex wSchema n)) = true ∧
    ∃ s1, applyOps upgradeOps wSchema = .ok s1 ∧ applyOps downgradeOps s1 = .ok wSchema :=
  ⟨by decide, by decide, upgrade_downgrade_roundtrip wSchema (by decide) (by decide)⟩

/-- C2 counterexample: `upgrade` run on an empty database yields a schema
in which no column of any table is named `identifier_text`,
`identifier_ref` or `transform_pass` — the names the claim asserts. -/
theorem spec_column_names_absent :
    (applyOps upgradeOps emptySchema).toOption = some upgradedFromEmpty ∧
    (upgradedFromEmpty.tables.all fun t => t.columns.all fun c =>
      !(c.name == "identifier_text") && !(c.name == "identifier_ref") &&
        !(c.name == "transform_pass")) = true := by decide

/-- C2 amended: in the schema `upgrade` creates, the identifiers table has
a non-null text column named `Identifier`, the files and passes tables
each have a nullable integer column named `Identifier_field`, and the
passes payload column is the non-null text column `transformpass`. -/
theorem upgrade_column_names :
    (applyOps upgradeOps emptySchema).toOption = some upgradedFromEmpty ∧
    identifiersTable ∈ upgradedFromEmpty.tables ∧
    (⟨"Identifier", ColType.text, false⟩ : Column) ∈ identifiersTable.columns ∧
    filesTable ∈ upgradedFromEmpty.tables ∧
    (⟨"Identifier_field", ColType.integer, true⟩ : Column) ∈ filesTable.columns ∧
    passesTable ∈ upgradedFromEmpty.tables ∧
    (⟨"Identifier_field", ColType.integer, true⟩ : Column) ∈ passesTable.columns ∧
    (⟨"transformpass", ColType.text, false⟩ : Column) ∈ passesTable.columns := by decide

/-- The table name created by a DDL statement, if any. -/
def createdTableName : Op → Option String
  | .createTable t => some t.name
  | _ => none

/-- The table names created by a statement sequence, in order. -/
def tableCreationOrder (ops : List Op) : List String :=
  ops.filterMap createdTableName

/-- Checks that a statement sequence is a run of table creations, each
immediately followed by index creations on that same table (the first
argument tracks the table just created). -/
def groupedByTable : Option String → List Op → Bool
  | _, [] => true
  | _, Op.createTable t :: rest => groupedByTable (some t.name) rest
  | some tname, Op.createIndex i :: rest => i.table == tname && groupedByTable (some tname) rest
  | _, _ => false

/-- The names of the indexes a statement sequence creates on a given
table, in order. -/
def indexCreationsFor (ops : List Op) (tname : String) : List String :=
  ops.filterMap fun op =>
    match op with
    | .createIndex i => if i.table == tname then some i.name else none
    | _ => none

/-- C4: `upgrade` creates the tables in the order identifiers, user,
files, passes, each table's creation immediately followed by its index
creations; the foreign keys of files and passes both target identifiers,
which is created first. -/
theorem upgrade_creation_order :
    tableCreationOrder upgradeOps = ["identifiers", "user", "files", "passes"] ∧
    groupedByTable none upgradeOps = true ∧
    indexCreationsFor upgradeOps "identifiers" = ["ix_identifiers_id"] ∧
    indexCreationsFor upgradeOps "user" = ["ix_user_email", "ix_user_id", "ix_user_username"] ∧
    indexCreationsFor upgradeOps "files" = ["ix_files_id"] ∧
    indexCreationsFor upgradeOps "passes" = ["ix_passes_id"] ∧
    (filesTable.foreignKeys.all fun fk => fk.refTable == "identifiers") = true ∧
    (passesTable.foreignKeys.all fun fk => fk.refTable == "identifiers") = true := by
  decide

/-- The drop statement undoing a create statement. -/
def invOp : Op → Option Op
  | .createTable t => some (.dropTable t.name)
  | .createIndex i => some (.dropIndex i.name i.table)
  | _ => none

/-- C5: the statement sequence of `downgrade` is exactly the reverse of
the statement sequence of `upgrade`, with each creation replaced by the
corresponding drop. -/
theorem downgrade_reverses_upgrade :
    downgradeOps = (upgradeOps.reverse).filterMap invOp := by decide

/-- What the migration exposes to the migration runner. -/
structure Migration where
  revision : String
  down_revision : Option String
deriving DecidableEq, Repr

/-- The one migration of this repository. -/
def initMigration : Migration := ⟨revision, down_revision⟩

/-- The repository's revision history: this single migration. -/
def migrationHistory : List Migration := [initMigration]

/-- C9: the migration exposes revision `c6b6fb03f1c5`, its prior-revision
pointer is none (it is the root of the history), and revision identifiers
are unique across the history. -/
theorem revision_is_root :
    initMigration.revision = "c6b6fb03f1c5" ∧
    initMigration.down_revision = none ∧
    (migrationHistory.map Migration.revision).Nodup ∧
    initMigration ∈ migrationHistory := by
  refine ⟨rfl, rfl, ?_, ?_⟩ <;> decide

/-! ## Conflict behaviour of upgrade (C6) -/

/-- Whether a DDL statement is a creation (`upgrade` issues only these). -/
def Op.isCreate : Op → Bool
  | .createTable _ => true
  | .createIndex _ => true
  | _ => false

/-- A successful creation statement never removes a table or index name. -/
theorem applyOp_create_mono (op : Op) (hc : op.isCreate = true) {s s' : Schema}
    (h : applyOp s op = .ok s') (n : String) :
    (hasTable s n = true → hasTable s' n = true) ∧
    (hasIndex s n = true → hasIndex s' n = true) := by
  cases op with
  | createTable t =>
    simp only [applyOp] at h
    by_cases hA : hasTable s t.name = true
    · simp [hA] at h
    · by_cases hB : (t.foreignKeys.any fun fk => !(hasTable s fk.refTable)) = true
      · simp [hA, hB] at h
      · simp [hA, hB] at h
        subst h
        refine ⟨fun hn => ?_, fun hn => hn⟩
        simp only [hasTable] at hn ⊢
        simp [hn]
  | createIndex i =>
    simp only [applyOp] at h
    by_cases hA : hasIndex s i.name = true
    · simp [hA] at h
    · by_cases hB : hasTable s i.table = true
      · simp [hA, hB] at h
        subst h
        refine ⟨fun hn => hn, fun hn => ?_⟩
        simp only [hasIndex] at hn ⊢
        simp [hn]
      · simp [hA, hB] at h
  | dropIndex m tbl => simp [Op.isCreate] at hc
  | dropTable m => simp [Op.isCreate] at hc

/-- A sequence of creation statements errors whenever one of the names it
creates is already present at the start. -/
theorem applyOps_create_conflict (ops : List Op) (s : Schema)
    (hall : ops.all Op.isCreate = true)
    (hconf : (∃ t, Op.createTable t ∈ ops ∧ hasTable s t.name = true) ∨
             (∃ i, Op.createIndex i ∈ ops ∧ hasIndex s i.name = true)) :
    ∃ e, applyOps ops s = .error e := by
  induction ops generalizing s with
  | nil => rcases hconf with ⟨t, hmem, -⟩ | ⟨i, hmem, -⟩ <;> simp at hmem
  | cons op ops ih =>
    simp only [List.all_cons, Bool.and_eq_true] at hall
    cases hop : applyOp s op with
    | error e => exact ⟨e, by simp [applyOps, hop]⟩
    | ok s1 =>
      have step : applyOps (op :: ops) s = applyOps ops s1 := by simp [applyOps, hop]
      rw [step]
      apply ih s1 hall.2
      rcases hconf with ⟨t, hmem, hhas⟩ | ⟨i, hmem, hhas⟩
      · rcases List.mem_cons.mp hmem with heq | hmem'
        · exfalso
          rw [← heq] at hop
          simp [applyOp, hhas] at hop
        · exact Or.inl ⟨t, hmem', (applyOp_create_mono op hall.1 hop t.name).1 hhas⟩
      · rcases List.mem_cons.mp hmem with heq | hmem'
        · exfalso
          rw [← heq] at hop
          simp [applyOp, hhas] at hop
        · exact Or.inr ⟨i, hmem', (applyOp_create_mono op hall.1 hop i.name).2 hhas⟩

/-- C6: if any declared table or index name already exists in the starting
schema, `upgrade` fails, and under transactional DDL the schema after the
failed run is exactly the starting schema. -/
theorem upgrade_conflict_aborts (s : Schema)
    (h : ((declaredTableNames.any fun n => hasTable s n) ||
          (declaredIndexNames.any fun n => hasIndex s n)) = true) :
    (∃ e, applyOps upgradeOps s = .error e) ∧ runDDL upgradeOps s = s := by
  have hconf : (∃ t, Op.createTable t ∈ upgradeOps ∧ hasTable s t.name = true) ∨
      (∃ i, Op.createIndex i ∈ upgradeOps ∧ hasIndex s i.name = true) := by
    simp only [declaredTableNames, declaredIndexNames, List.any_cons, List.any_nil,
      Bool.or_eq_true, Bool.or_false] at h
    rcases h with ((h | h | h | h) | (h | h | h | h | h | h))
    · exact Or.inl ⟨identifiersTable, by decide, h⟩
    · exact Or.inl ⟨userTable, by decide, h⟩
    · exact Or.inl ⟨filesTable, by decide, h⟩
    · exact Or.inl ⟨passesTable, by decide, h⟩
    · exact Or.inr ⟨ixIdentifiersId, by decide, h⟩
    · exact Or.inr ⟨ixUserEmail, by decide, h⟩
    · exact Or.inr ⟨ixUserId, by decide, h⟩
    · exact Or.inr ⟨ixUserUsername, by decide, h⟩
    · exact Or.inr ⟨ixFilesId, by decide, h⟩
    · exact Or.inr ⟨ixPassesId, by decide, h⟩
  obtain ⟨e, he⟩ := applyOps_create_conflict upgradeOps s (by decide) hconf
  exact ⟨⟨e, he⟩, by simp [runDDL, he]⟩

/-- A concrete schema that already holds one of the migration's tables. -/
def conflictSchema : Schema := ⟨[userTable], []⟩

/-- C6 witness: a schema already holding the `user` table makes `upgrade`
fail and remain unchanged. -/
theorem upgrade_conflict_aborts_witness :
    ((declaredTableNames.any fun n => hasTable conflictSchema n) ||
      (declaredIndexNames.any fun n => hasIndex conflictSchema n)) = true ∧
    ((∃ e, applyOps upgradeOps conflictSchema = .error e) ∧
      runDDL upgradeOps conflictSchema = conflictSchema) :=
  ⟨by decide, upgrade_conflict_aborts conflictSchema (by decide)⟩

/-! ## Frame property (C10) -/

/-- The name of the object a DDL statement creates or drops. -/
def opName : Op → String
  | .createTable t => t.name
  | .createIndex i => i.name
  | .dropIndex m _ => m
  | .dropTable m => m

/-- Filtering by a predicate implied by the search predicate does not
change the result of `find?`. -/
theorem find?_filter_of_imp {α : Type} (l : List α) (p q : α → Bool)
    (h : ∀ x, p x = true → q x = true) :
    (l.filter q).find? p = l.find? p := by
  induction l with
  | nil => rfl
  | cons a l ih =>
    cases hpa : p a with
    | true =>
      have hqa := h a hpa
      simp [List.filter_cons, hqa, List.find?_cons, hpa]
    | false =>
      by_cases hq : q a = true
      · simp [List.filter_cons, hq, List.find?_cons, hpa, ih]
      · simp [List.filter_cons, hq, List.find?_cons, hpa, ih]

/-- A single successful DDL statement leaves every object whose name it
does not target unchanged. -/
theorem applyOp_frame {s s' : Schema} {op : Op} {n : String}
    (h : applyOp s op = .ok s') (hn : ¬(opName op = n)) :
    lookupTable s' n = lookupTable s n ∧ lookupIndex s' n = lookupIndex s n := by
  cases op with
  | createTable t =>
    simp only [opName] at hn
    simp only [applyOp] at h
    by_cases hA : hasTable s t.name = true
    · simp [hA] at h
    · by_cases hB : (t.foreignKeys.any fun fk => !(hasTable s fk.refTable)) = true
      · simp [hA, hB] at h
      · simp [hA, hB] at h
        subst h
        refine ⟨?_, rfl⟩
        simp only [lookupTable, List.find?_append]
        have hone : List.find? (fun tt => tt.name == n) [t] = none := by
          simp [List.find?_cons, beq_eq_false_iff_ne, hn]
        simp [hone]
  | createIndex i =>
    simp only [opName] at hn
    simp only [applyOp] at h
    by_cases hA : hasIndex s i.name = true
    · simp [hA] at h
    · by_cases hB : hasTable s i.table = true
      · simp [hA, hB] at h
        subst h
        refine ⟨rfl, ?_⟩
        simp only [lookupIndex, List.find?_append]
        have hone : List.find? (fun ii => ii.name == n) [i] = none := by
          simp [List.find?_cons, beq_eq_false_iff_ne, hn]
        simp [hone]
      · simp [hA, hB] at h
  | dropIndex m tbl =>
    simp only [opName] at hn
    simp only [applyOp] at h
    by_cases hA : hasIndex s m = true
    · simp [hA] at h
      subst h
      refine ⟨rfl, ?_⟩
      simp only [lookupIndex]
      refine find?_filter_of_imp _ _ _ fun x hx => ?_
      simp only [beq_iff_eq] at hx
      simp [hx, beq_eq_false_iff_ne]
      exact fun hmn => hn hmn.symm
    · simp [hA] at h
  | dropTable m =>
    simp only [opName] at hn
    simp only [applyOp] at h
    by_cases hA : hasTable s m = true
    · simp [hA] at h
      subst h
      refine ⟨?_, rfl⟩
      simp only [lookupTable]
      refine find?_filter_of_imp _ _ _ fun x hx => ?_
      simp only [beq_iff_eq] at hx
      simp [hx, beq_eq_false_iff_ne]
      exact fun hmn => hn hmn.symm
    · simp [hA] at h

/-- A successful DDL run leaves every object whose name it never targets
unchanged. -/
theorem applyOps_frame (ops : List Op) {s s' : Schema} {n : String}
    (h : applyOps ops s = .ok s') (hn : ∀ op ∈ ops, ¬(opName op = n)) :
    lookupTable s' n = lookupTable s n ∧ lookupIndex s' n = lookupIndex s n := by
  induction ops generalizing s with
  | nil =>
    simp only [applyOps] at h
    cases h
    exact ⟨rfl, rfl⟩
  | cons op ops ih =>
    cases hop : applyOp s op with
    | error e => simp [applyOps, hop] at h
    | ok s1 =>
      have h' : applyOps ops s1 = .ok s' := by
        simpa [applyOps, hop] using h
      have f1 := applyOp_frame hop (hn op (by simp))
      have f2 := ih h' fun o ho => hn o (by simp [ho])
      exact ⟨f2.1.trans f1.1, f2.2.trans f1.2⟩

/-- C10: any table or index whose name is not among the tables and indexes
this migration declares is left unchanged by `upgrade` and by `downgrade`,
on every starting schema. -/
theorem migration_frame (s : Schema) (n : String)
    (h1 : ¬(n ∈ declaredTableNames)) (h2 : ¬(n ∈ declaredIndexNames)) :
    lookupTable (runDDL upgradeOps s) n = lookupTable s n ∧
    lookupIndex (runDDL upgradeOps s) n = lookupIndex s n ∧
    lookupTable (runDDL downgradeOps s) n = lookupTable s n ∧
    lookupIndex (runDDL downgradeOps s) n = lookupIndex s n := by
  have hnames : ∀ op ∈ upgradeOps ++ downgradeOps,
      opName op ∈ declaredTableNames ∨ opName op ∈ declaredIndexNames := by decide
  have hside : ∀ op ∈ upgradeOps ++ downgradeOps, ¬(opName op = n) := by
    intro op hop heq
    rcases hnames op hop with hmem | hmem
    · exact h1 (heq ▸ hmem)
    · exact h2 (heq ▸ hmem)
  have hup : ∀ op ∈ upgradeOps, ¬(opName op = n) := fun op hop =>
    hside op (List.mem_append.mpr (Or.inl hop))
  have hdown : ∀ op ∈ downgradeOps, ¬(opName op = n) := fun op hop =>
    hside op (List.mem_append.mpr (Or.inr hop))
  have hu : lookupTable (runDDL upgradeOps s) n = lookupTable s n ∧
      lookupIndex (runDDL upgradeOps s) n = lookupIndex s n := by
    cases happ : applyOps upgradeOps s with
    | ok s' =>
      have := applyOps_frame upgradeOps happ hup
      simpa [runDDL, happ] using this
    | error e => simp [runDDL, happ]
  have hd : lookupTable (runDDL downgradeOps s) n = lookupTable s n ∧
      lookupIndex (runDDL downgradeOps s) n = lookupIndex s n := by
    cases happ : applyOps downgradeOps s with
    | ok s' =>
      have := applyOps_frame downgradeOps happ hdown
      simpa [runDDL, happ] using this
    | error e => simp [runDDL, happ]
  exact ⟨hu.1, hu.2, hd.1, hd.2⟩

/-- C10 witness: the unrelated table `other` and its index are untouched
on a concrete schema. -/
theorem migration_frame_witness :
    ¬("other" ∈ declaredTableNames) ∧ ¬("other" ∈ declaredIndexNames) ∧
    (lookupTable (runDDL upgradeOps wSchema) "other" = lookupTable wSchema "other" ∧
      lookupIndex (runDDL upgradeOps wSchema) "other" = lookupIndex wSchema "other" ∧
      lookupTable (runDDL downgradeOps wSchema) "other" = lookupTable wSchema "other" ∧
      lookupIndex (runDDL downgradeOps wSchema) "other" = lookupIndex wSchema "other") :=
  ⟨by decide, by decide, migration_frame wSchema "other" (by decide) (by decide)⟩

/-! ## Cascade delete (C3) -/

/-- C3: both child tables declare their foreign key to `identifiers.id`
ON DELETE CASCADE, and deleting an identifier row removes exactly the
`files` and `passes` rows referencing it: afterwards no row references
the deleted id, and every row not referencing it survives. -/
theorem cascade_delete_identifier :
    (filesTable.foreignKeys.any fun fk =>
      fk.refTable == "identifiers" && fk.refCols == ["id"] &&
        fk.onDelete == some "CASCADE") = true ∧
    (passesTable.foreignKeys.any fun fk =>
      fk.refTable == "identifiers" && fk.refCols == ["id"] &&
        fk.onDelete == some "CASCADE") = true ∧
    ∀ (db : DBState) (k : Nat) (db' : DBState),
      applyDML db (.deleteIdentifier k) = some db' →
      (db'.files.all fun r => !(r.Identifier_field == some k)) = true ∧
      (db'.passes.all fun r => !(r.Identifier_field == some k)) = true ∧
      (∀ r ∈ db.files, (!(r.Identifier_field == some k)) = true → r ∈ db'.files) ∧
      (∀ r ∈ db.passes, (!(r.Identifier_field == some k)) = true → r ∈ db'.passes) := by
  refine ⟨by decide, by decide, ?_⟩
  intro db k db' h
  have hfc : filesCascade = true := by decide
  have hpc : passesCascade = true := by decide
  simp only [applyDML, hfc, hpc, if_true, Option.some.injEq] at h
  subst h
  refine ⟨?_, ?_, ?_, ?_⟩
  · rw [List.all_eq_true]
    intro r hr
    exact (List.mem_filter.mp hr).2
  · rw [List.all_eq_true]
    intro r hr
    exact (List.mem_filter.mp hr).2
  · intro r hr hne
    exact List.mem_filter.mpr ⟨hr, hne⟩
  · intro r hr hne
    exact List.mem_filter.mpr ⟨hr, hne⟩

/-- A concrete database: two identifiers, children of identifier 1 in
both tables, plus rows not referencing it. -/
def cascadeDB : DBState :=
  ⟨[⟨1, "mod.cpp"⟩, ⟨2, "other.cpp"⟩], [],
   [⟨1, some 1, "int main()"⟩, ⟨2, some 2, "x"⟩, ⟨3, none, "y"⟩],
   [⟨1, some 1, "InstCombine"⟩, ⟨2, none, "DCE"⟩]⟩

/-- The database after deleting identifier 1 from `cascadeDB`. -/
def cascadeDB' : DBState :=
  ⟨[⟨2, "other.cpp"⟩], [],
   [⟨2, some 2, "x"⟩, ⟨3, none, "y"⟩],
   [⟨2, none, "DCE"⟩]⟩

/-- C3 witness: the cascade at a concrete database. -/
theorem cascade_delete_identifier_witness :
    applyDML cascadeDB (.deleteIdentifier 1) = some cascadeDB' ∧
    ((cascadeDB'.files.all fun r => !(r.Identifier_field == some 1)) = true ∧
      (cascadeDB'.passes.all fun r => !(r.Identifier_field == some 1)) = true ∧
      (∀ r ∈ cascadeDB.files, (!(r.Identifier_field == some 1)) = true → r ∈ cascadeDB'.files) ∧
      (∀ r ∈ cascadeDB.passes, (!(r.Identifier_field == some 1)) = true → r ∈ cascadeDB'.passes)) :=
  ⟨by decide, cascade_delete_identifier.2.2 cascadeDB 1 cascadeDB' (by decide)⟩

/-! ## Referential integrity under DML (C7) -/

/-- Extending the parent table preserves admissibility of a foreign-key
value. -/
theorem fkOk_append (ids : List Nat) (x : Nat) (r : Option Nat)
    (h : fkOk ids r = true) : fkOk (ids ++ [x]) r = true := by
  cases r with
  | none => rfl
  | some k =>
    simp only [fkOk] at h ⊢
    simp [List.any_append, h]

/-- Filtering identifier rows by id commutes with projecting the ids. -/
theorem map_id_filter (l : List IdentifierRow) (k : Nat) :
    ((l.filter fun r => !(r.id == k)).map fun r => r.id) =
      (l.map fun r => r.id).filter fun j => !(j == k) := by
  induction l with
  | nil => rfl
  | cons a l ih =>
    by_cases ha : (a.id == k) = true
    · simp [List.filter_cons, ha, ih]
    · simp only [Bool.not_eq_true] at ha
      simp [List.filter_cons, ha, ih]

/-- Every single DML statement the engine accepts preserves referential
integrity of the `files` and `passes` foreign keys. -/
theorem dml_preserves_integrity (op : DMLOp) (db db' : DBState)
    (hint : refIntegrity db = true) (h : applyDML db op = some db') :
    refIntegrity db' = true := by
  simp only [refIntegrity, Bool.and_eq_true, List.all_eq_true] at hint
  obtain ⟨hf, hp⟩ := hint
  cases op with
  | insertIdentifier r =>
    simp only [applyDML] at h
    by_cases hdup : (db.identifiers.any fun v => v.id == r.id) = true
    · simp [hdup] at h
    · simp only [Bool.not_eq_true] at hdup
      simp only [hdup, Bool.false_eq_true, if_false, Option.some.injEq] at h
      subst h
      simp only [refIntegrity, Bool.and_eq_true, List.all_eq_true]
      constructor
      · intro r' hr'
        have := hf r' hr'
        simpa [identifierIds, List.map_append] using
          fkOk_append (identifierIds db) r.id r'.Identifier_field this
      · intro r' hr'
        have := hp r' hr'
        simpa [identifierIds, List.map_append] using
          fkOk_append (identifierIds db) r.id r'.Identifier_field this
  | insertUser r =>
    simp only [applyDML] at h
    by_cases h1 : (db.users.any fun v => v.id == r.id) = true
    · simp [h1] at h
    · simp only [Bool.not_eq_true] at h1
      simp only [h1, Bool.false_eq_true, if_false] at h
      by_cases h2 : (ixUserEmail.unique && takenBy (db.users.map fun v => v.email) r.email) = true
      · simp [h2] at h
      · simp only [Bool.not_eq_true] at h2
        simp only [h2, Bool.false_eq_true, if_false] at h
        by_cases h3 : (ixUserUsername.unique &&
            takenBy (db.users.map fun v => v.username) r.username) = true
        · simp [h3] at h
        · simp only [Bool.not_eq_true] at h3
          simp only [h3, Bool.false_eq_true, if_false, Option.some.injEq] at h
          subst h
          simp only [refIntegrity, Bool.and_eq_true, List.all_eq_true]
          exact ⟨hf, hp⟩
  | insertFile r =>
    simp only [applyDML] at h
    by_cases h1 : (db.files.any fun v => v.id == r.id) = true
    · simp [h1] at h
    · simp only [Bool.not_eq_true] at h1
      simp only [h1, Bool.false_eq_true, if_false] at h
      by_cases h2 : fkOk (identifierIds db) r.Identifier_field = true
      · simp only [h2, Bool.not_true, Bool.false_eq_true, if_false, Option.some.injEq] at h
        subst h
        simp only [refIntegrity, Bool.and_eq_true, List.all_eq_true]
        constructor
        · intro r' hr'
          rcases List.mem_append.mp hr' with hmem | hmem
          · exact hf r' hmem
          · rcases List.mem_singleton.mp hmem with rfl
            exact h2
        · intro r' hr'
          exact hp r' hr'
      · simp only [Bool.not_eq_true] at h2
        simp [h2] at h
  | insertPass r =>
    simp only [applyDML] at h
    by_cases h1 : (db.passes.any fun v => v.id == r.id) = true
    · simp [h1] at h
    · simp only [Bool.not_eq_true] at h1
      simp only [h1, Bool.false_eq_true, if_false] at h
      by_cases h2 : fkOk (identifierIds db) r.Identifier_field = true
      · simp only [h2, Bool.not_true, Bool.false_eq_true, if_false, Option.some.injEq] at h
        subst h
        simp only [refIntegrity, Bool.and_eq_true, List.all_eq_true]
        constructor
        · intro r' hr'
          exact hf r' hr'
        · intro r' hr'
          rcases List.mem_append.mp hr' with hmem | hmem
          · exact hp r' hmem
          · rcases List.mem_singleton.mp hmem with rfl
            exact h2
      · simp only [Bool.not_eq_true] at h2
        simp [h2] at h
  | deleteIdentifier k =>
    have hfc : filesCascade = true := by decide
    have hpc : passesCascade = true := by decide
    simp only [applyDML, hfc, hpc, if_true, Option.some.injEq] at h
    subst h
    simp only [refIntegrity, Bool.and_eq_true, List.all_eq_true]
    constructor
    · intro r' hr'
      obtain ⟨hmem, hne⟩ := List.mem_filter.mp hr'
      have hold := hf r' hmem
      show fkOk ((db.identifiers.filter fun v => !(v.id == k)).map fun v => v.id)
        r'.Identifier_field = true
      rw [map_id_filter]
      cases hfield : r'.Identifier_field with
      | none => rfl
      | some j =>
        rw [hfield] at hold hne
        have hjk : ¬(j = k) := by
          intro hjk
          rw [hjk] at hne
          simp at hne
        simp only [fkOk, List.any_eq_true, beq_iff_eq] at hold ⊢
        obtain ⟨x, hx, hxj⟩ := hold
        exact ⟨x, List.mem_filter.mpr ⟨hx, by simp [hxj, hjk]⟩, hxj⟩
    · intro r' hr'
      obtain ⟨hmem, hne⟩ := List.mem_filter.mp hr'
      have hold := hp r' hmem
      show fkOk ((db.identifiers.filter fun v => !(v.id == k)).map fun v => v.id)
        r'.Identifier_field = true
      rw [map_id_filter]
      cases hfield : r'.Identifier_field with
      | none => rfl
      | some j =>
        rw [hfield] at hold hne
        have hjk : ¬(j = k) := by
          intro hjk
          rw [hjk] at hne
          simp at hne
        simp only [fkOk, List.any_eq_true, beq_iff_eq] at hold ⊢
        obtain ⟨x, hx, hxj⟩ := hold
        exact ⟨x, List.mem_filter.mpr ⟨hx, by simp [hxj, hjk]⟩, hxj⟩
  | deleteUser k =>
    simp only [applyDML, Option.some.injEq] at h
    subst h
    simp only [refIntegrity, Bool.and_eq_true, List.all_eq_true]
    exact ⟨hf, hp⟩
  | deleteFile k =>
    simp only [applyDML, Option.some.injEq] at h
    subst h
    simp only [refIntegrity, Bool.and_eq_true, List.all_eq_true]
    exact ⟨fun r hr => hf r (List.mem_filter.mp hr).1, hp⟩
  | deletePass k =>
    simp only [applyDML, Option.some.injEq] at h
    subst h
    simp only [refIntegrity, Bool.and_eq_true, List.all_eq_true]
    exact ⟨hf, fun r hr => hp r (List.mem_filter.mp hr).1⟩
  | updateFileRef k ref =>
    simp only [applyDML] at h
    by_cases h1 : fkOk (identifierIds db) ref = true
    · simp only [h1, Bool.not_true, Bool.false_eq_true, if_false, Option.some.injEq] at h
      subst h
      simp only [refIntegrity, Bool.and_eq_true, List.all_eq_true]
      constructor
      · intro r' hr'
        obtain ⟨v, hv, rfl⟩ := List.mem_map.mp hr'
        by_cases hid : (v.id == k) = true
        · simpa [hid] using h1
        · simp only [Bool.not_eq_true] at hid
          simpa [hid] using hf v hv
      · intro r' hr'
        exact hp r' hr'
    · simp only [Bool.not_eq_true] at h1
      simp [h1] at h
  | updatePassRef k ref =>
    simp only [applyDML] at h
    by_cases h1 : fkOk (identifierIds db) ref = true
    · simp only [h1, Bool.not_true, Bool.false_eq_true, if_false, Option.some.injEq] at h
      subst h
      simp only [refIntegrity, Bool.and_eq_true, List.all_eq_true]
      constructor
      · intro r' hr'
        exact hf r' hr'
      · intro r' hr'
        obtain ⟨v, hv, rfl⟩ := List.mem_map.mp hr'
        by_cases hid : (v.id == k) = true
        · simpa [hid] using h1
        · simp only [Bool.not_eq_true] at hid
          simpa [hid] using hp v hv
    · simp only [Bool.not_eq_true] at h1
      simp [h1] at h

/-- A DML run from a state satisfying referential integrity ends in one
satisfying it. -/
theorem runDML_integrity (ops : List DMLOp) (db db' : DBState)
    (hint : refIntegrity db = true) (h : runDML db ops = some db') :
    refIntegrity db' = true := by
  induction ops generalizing db with
  | nil =>
    simp only [runDML, Option.some.injEq] at h
    subst h
    exact hint
  | cons op ops ih =>
    simp only [runDML] at h
    cases hop : applyDML db op with
    | none => rw [hop] at h; cases h
    | some db1 =>
      rw [hop] at h
      exact ih db1 (dml_preserves_integrity op db db1 hint hop) h

/-- C7: in every database state reachable by inserts, updates and deletes
from the freshly migrated database, every `files` and `passes` row has a
null `Identifier_field` or references an existing `identifiers.id`; and an
insert whose reference matches no identifier row is rejected. -/
theorem reachable_ref_integrity (ops : List DMLOp) (db : DBState)
    (h : runDML initialDB ops = some db) :
    refIntegrity db = true ∧
    (∀ (db' : DBState) (r : FileRow) (k : Nat), r.Identifier_field = some k →
      ((identifierIds db').any fun j => j == k) = false →
      applyDML db' (.insertFile r) = none) ∧
    (∀ (db' : DBState) (r : PassRow) (k : Nat), r.Identifier_field = some k →
      ((identifierIds db').any fun j => j == k) = false →
      applyDML db' (.insertPass r) = none) := by
  refine ⟨runDML_integrity ops initialDB db (by decide) h, ?_, ?_⟩
  · intro db' r k hr hany
    by_cases hdup : (db'.files.any fun v => v.id == r.id) = true
    · simp [applyDML, hdup]
    · simp only [Bool.not_eq_true] at hdup
      simp [applyDML, hdup, fkOk, hr, hany]
  · intro db' r k hr hany
    by_cases hdup : (db'.passes.any fun v => v.id == r.id) = true
    · simp [applyDML, hdup]
    · simp only [Bool.not_eq_true] at hdup
      simp [applyDML, hdup, fkOk, hr, hany]

/-- The spec's example scenario as a DML run. -/
def exampleRun : List DMLOp :=
  [ .insertIdentifier ⟨1, "mod.cpp"⟩
  , .insertFile ⟨1, some 1, "int main()"⟩
  , .insertPass ⟨1, some 1, "InstCombine"⟩
  , .insertUser ⟨1, some "alice", some "alice@example.com"⟩
  , .updateFileRef 1 none
  , .deleteIdentifier 1 ]

/-- The state the example scenario reaches. -/
def exampleDB : DBState :=
  ⟨[], [⟨1, some "alice", some "alice@example.com"⟩], [⟨1, none, "int main()"⟩], []⟩

/-- C7 witness: the invariant and the rejection at concrete inputs. -/
theorem reachable_ref_integrity_witness :
    runDML initialDB exampleRun = some exampleDB ∧
    (refIntegrity exampleDB = true ∧
      (∀ (db' : DBState) (r : FileRow) (k : Nat), r.Identifier_field = some k →
        ((identifierIds db').any fun j => j == k) = false →
        applyDML db' (.insertFile r) = none) ∧
      (∀ (db' : DBState) (r : PassRow) (k : Nat), r.Identifier_field = some k →
        ((identifierIds db').any fun j => j == k) = false →
        applyDML db' (.insertPass r) = none)) :=
  ⟨by decide, reachable_ref_integrity exampleRun exampleDB (by decide)⟩

/-! ## User uniqueness and nullability (C8) -/

/-- C8: `upgrade` creates `user` with nullable string columns `username`
and `email`, a unique index on `email`, a unique index on `username` and a
non-unique index on `id`; inserting a row whose non-null `email` (or
`username`) repeats an existing row's is rejected, while a row with both
columns null and a fresh id is accepted. -/
theorem user_unique_and_nullable :
    (Op.createTable userTable ∈ upgradeOps ∧
      userTable.columns = [⟨"id", ColType.integer, false⟩, ⟨"username", ColType.string, true⟩,
        ⟨"email", ColType.string, true⟩] ∧
      Op.createIndex ixUserEmail ∈ upgradeOps ∧
      ixUserEmail = ⟨"ix_user_email", "user", ["email"], true⟩ ∧
      Op.createIndex ixUserUsername ∈ upgradeOps ∧
      ixUserUsername = ⟨"ix_user_username", "user", ["username"], true⟩ ∧
      Op.createIndex ixUserId ∈ upgradeOps ∧
      ixUserId = ⟨"ix_user_id", "user", ["id"], false⟩) ∧
    (∀ (db : DBState) (u v : UserRow), v ∈ db.users → v.email = u.email →
      ¬(u.email = none) → applyDML db (.insertUser u) = none) ∧
    (∀ (db : DBState) (u v : UserRow), v ∈ db.users → v.username = u.username →
      ¬(u.username = none) → applyDML db (.insertUser u) = none) ∧
    (∀ (db : DBState) (u : UserRow), u.email = none → u.username = none →
      (db.users.all fun v => !(v.id == u.id)) = true →
      (applyDML db (.insertUser u)).isSome = true) := by
  refine ⟨by decide, ?_, ?_, ?_⟩
  · intro db u v hv hsame hne
    by_cases hdup : (db.users.any fun w => w.id == u.id) = true
    · simp [applyDML, hdup]
    · simp only [Bool.not_eq_true] at hdup
      cases hmail : u.email with
      | none => exact absurd hmail hne
      | some e =>
        have htaken : takenBy (db.users.map fun w => w.email) u.email = true := by
          rw [hmail]
          simp only [takenBy, List.any_eq_true]
          exact ⟨v.email, List.mem_map.mpr ⟨v, hv, rfl⟩, by simp [hsame, hmail]⟩
        simp [applyDML, hdup, htaken, ixUserEmail]
  · intro db u v hv hsame hne
    by_cases hdup : (db.users.any fun w => w.id == u.id) = true
    · simp [applyDML, hdup]
    · simp only [Bool.not_eq_true] at hdup
      by_cases hm : (ixUserEmail.unique && takenBy (db.users.map fun w => w.email) u.email) = true
      · simp [applyDML, hdup, hm]
      · simp only [Bool.not_eq_true] at hm
        cases hname : u.username with
        | none => exact absurd hname hne
        | some nm =>
          have htaken : takenBy (db.users.map fun w => w.username) u.username = true := by
            rw [hname]
            simp only [takenBy, List.any_eq_true]
            exact ⟨v.username, List.mem_map.mpr ⟨v, hv, rfl⟩, by simp [hsame, hname]⟩
          simp [applyDML, hdup, hm, htaken, ixUserUsername]
  · intro db u hmail hname hid
    have hdup : (db.users.any fun w => w.id == u.id) = false := by
      rw [List.any_eq_false]
      intro w hw
      have := List.all_eq_true.mp hid w hw
      simpa using this
    simp [applyDML, hdup, hmail, hname, takenBy]

/-- A concrete user table with one fully populated row. -/
def userDB : DBState := ⟨[], [⟨1, some "alice", some "alice@example.com"⟩], [], []⟩

/-- C8 witness: rejection of a duplicate email and of a duplicate
username, and acceptance of an all-null row, at concrete inputs. -/
theorem user_unique_and_nullable_witness :
    applyDML userDB (.insertUser ⟨2, some "bob", some "alice@example.com"⟩) = none ∧
    applyDML userDB (.insertUser ⟨2, some "alice", some "bob@example.com"⟩) = none ∧
    (applyDML userDB (.insertUser ⟨2, none, none⟩)).isSome = true :=
  ⟨user_unique_and_nullable.2.1 userDB ⟨2, some "bob", some "alice@example.com"⟩
      ⟨1, some "alice", some "alice@example.com"⟩ (by decide) (by decide) (by decide),
    user_unique_and_nullable.2.2.1 userDB ⟨2, some "alice", some "bob@example.com"⟩
      ⟨1, some "alice", some "alice@example.com"⟩ (by decide) (by decide) (by decide),
    user_unique_and_nullable.2.2.2 userDB ⟨2, none, none⟩ (by decide) (by decide) (by decide)⟩

end LlvmFlow
